import Mathlib

/-!
Verification of the customer/subscription dashboard's billing and renewal
engine: a shallow embedding of the date/lifecycle utilities, the renewal
flows and the aggregation functions found in the repository's views
(`Dashboard`, `Customers`, `Servers`, `Plans`, `Storage`) and in `store.ts`,
together with theorems about them.

Conventions used throughout:
  * JavaScript numbers that can be `NaN` are modelled as `Option ℚ`
    (`none` = `NaN`); numbers that are known finite are plain `ℚ`.
  * Calendar dates produced by `parseLocalDate` (local midnight, no
    time-of-day) are modelled by `SDate` (year/month/day as integers);
    instants carrying a time-of-day (renewal timestamps) by `Timestamp`.
  * JavaScript strings are modelled as `String` where only equality is
    needed and as `List Char` where the code inspects their characters.
-/

/-! ## Calendar-date core

The repository compares `Date` values that `parseLocalDate` produced at
local midnight, using date-fns `isAfter` (timestamp order) and
`differenceInDays` (whole-day difference).  At local midnight both are
determined by the civil day number, so the embedding maps a calendar date
to its day number `toEpochDay` (days since 1970-01-01, proleptic
Gregorian) and compares those. -/

/-- Gregorian leap-year test (as in ECMAScript's date arithmetic used by
`new Date(y, m, d)` and date-fns). -/
def isLeap (y : Int) : Bool :=
  y % 4 == 0 && (y % 100 != 0 || y % 400 == 0)

/-- Number of days of month `m` (1–12) of year `y`. -/
def daysInMonth (y m : Int) : Int :=
  if m = 2 then (if isLeap y then 29 else 28)
  else if m = 4 ∨ m = 6 ∨ m = 9 ∨ m = 11 then 30
  else 31

/-- Days of year `y` that precede month `m`, ignoring the leap day. -/
def cumDaysBase (m : Int) : Int :=
  if m ≤ 1 then 0 else if m = 2 then 31 else if m = 3 then 59
  else if m = 4 then 90 else if m = 5 then 120 else if m = 6 then 151
  else if m = 7 then 181 else if m = 8 then 212 else if m = 9 then 243
  else if m = 10 then 273 else if m = 11 then 304 else 334

/-- Days of year `y` that precede month `m`. -/
def cumDays (y m : Int) : Int :=
  cumDaysBase m + (if 2 < m ∧ isLeap y then 1 else 0)

/-- Number of leap years in `[0, y)` (proleptic Gregorian; year 0 is leap). -/
def leapsBefore (y : Int) : Int :=
  (y - 1) / 4 - (y - 1) / 100 + (y - 1) / 400 + 1

/-- Days from 0000-01-01 to the first day of year `y`. -/
def daysBeforeYear (y : Int) : Int :=
  365 * y + leapsBefore y

/-- A calendar date (no time-of-day), as produced by `parseLocalDate`:
local midnight of the day `y`-`m`-`d`. -/
structure SDate where
  y : Int
  m : Int
  d : Int
deriving DecidableEq, Repr

/-- A well-formed calendar date. -/
def SDate.valid (dt : SDate) : Prop :=
  1 ≤ dt.m ∧ dt.m ≤ 12 ∧ 1 ≤ dt.d ∧ dt.d ≤ daysInMonth dt.y dt.m

instance (dt : SDate) : Decidable dt.valid := by
  unfold SDate.valid; infer_instance

/-- Civil day number of a date: days since 1970-01-01 (the quantity that
determines the millisecond timestamp of its local midnight). -/
def toEpochDay (dt : SDate) : Int :=
  daysBeforeYear dt.y + cumDays dt.y dt.m + (dt.d - 1) - 719528

/-- Calendar order on dates: year, then month, then day. -/
def SDate.lexLE (a b : SDate) : Prop :=
  a.y < b.y ∨ (a.y = b.y ∧ (a.m < b.m ∨ (a.m = b.m ∧ a.d ≤ b.d)))

instance (a b : SDate) : Decidable (a.lexLE b) := by
  unfold SDate.lexLE; infer_instance

example : toEpochDay ⟨1970, 1, 1⟩ = 0 := by decide
example : toEpochDay ⟨2024, 1, 1⟩ = 19723 := by decide
example : toEpochDay ⟨2000, 3, 1⟩ = 11017 := by decide

/-! ## Lifecycle utilities (Dashboard, Customers, Servers views)

`isActiveD` embeds the expression
`isAfter(dueDate, today) || differenceInDays(dueDate, today) === 0`
that appears verbatim in the Dashboard active counts, the Servers view's
active-customer filter and the Customers list status badge.  At local
midnight `isAfter` is the strict order on day numbers and
`differenceInDays` is their difference. -/

def isActiveD (dueDate today : SDate) : Bool :=
  (toEpochDay today < toEpochDay dueDate) ||
    (toEpochDay dueDate - toEpochDay today == 0)

/-- `differenceInDays(dueDate, today)` for two local-midnight dates. -/
def daysUntilDueD (dueDate today : SDate) : Int :=
  toEpochDay dueDate - toEpochDay today

/-- date-fns `addMonths`: move `n` months forward keeping the day-of-month,
clamped to the length of the target month. -/
def addMonthsD (dt : SDate) (n : Int) : SDate :=
  let tm := dt.y * 12 + (dt.m - 1) + n
  let y := tm / 12
  let m := tm % 12 + 1
  ⟨y, m, min dt.d (daysInMonth y m)⟩

/-- The renewal rollover of `confirmRenew` (Dashboard and Customers):
extend from the current due date while the subscription is active,
from today once it has expired. -/
def rolloverDueDate (currentDueDate today : SDate) (planMonths : Int) : SDate :=
  addMonthsD (if isActiveD currentDueDate today then currentDueDate else today)
    planMonths

example : addMonthsD ⟨2024, 1, 31⟩ 1 = ⟨2024, 2, 29⟩ := by decide
example : addMonthsD ⟨2023, 1, 31⟩ 1 = ⟨2023, 2, 28⟩ := by decide
example : addMonthsD ⟨2024, 3, 15⟩ 1 = ⟨2024, 4, 15⟩ := by decide

/-! ### Order correspondence: day numbers vs. calendar order -/

lemma isLeap_iff {y : Int} :
    isLeap y = true ↔ (y % 4 = 0 ∧ (y % 100 ≠ 0 ∨ y % 400 = 0)) := by
  simp [isLeap]

lemma daysBeforeYear_succ (y : Int) :
    daysBeforeYear (y + 1) = daysBeforeYear y + 365 + (if isLeap y then 1 else 0) := by
  unfold daysBeforeYear leapsBefore
  split_ifs with hL
  · rw [isLeap_iff] at hL; omega
  · rw [isLeap_iff] at hL; omega

lemma daysBeforeYear_mono {a b : Int} (h : a ≤ b) :
    daysBeforeYear a ≤ daysBeforeYear b := by
  unfold daysBeforeYear leapsBefore; omega

lemma cumDays_nonneg {y m : Int} (h1 : 1 ≤ m) (h2 : m ≤ 12) : 0 ≤ cumDays y m := by
  interval_cases m <;> cases hL : isLeap y <;>
    simp [cumDays, cumDaysBase, hL]

lemma cumDays_add_daysInMonth_le {y m mm : Int} (h1 : 1 ≤ m) (h2 : m < mm) (h3 : mm ≤ 12) :
    cumDays y m + daysInMonth y m ≤ cumDays y mm := by
  have h4 : m ≤ 11 := by omega
  interval_cases m <;> interval_cases mm <;> cases hL : isLeap y <;>
    simp [cumDays, cumDaysBase, daysInMonth, hL]

lemma cumDays_add_le {y m d : Int} (h1 : 1 ≤ m) (h2 : m ≤ 12) (h3 : d ≤ daysInMonth y m) :
    cumDays y m + d ≤ 365 + (if isLeap y then 1 else 0) := by
  interval_cases m <;> cases hL : isLeap y <;>
    simp [cumDays, cumDaysBase, daysInMonth, hL] at h3 ⊢ <;> omega

lemma toEpochDay_lt_of_lexLT : ∀ {a b : SDate}, a.valid → b.valid →
    (a.y < b.y ∨ (a.y = b.y ∧ (a.m < b.m ∨ (a.m = b.m ∧ a.d < b.d)))) →
    toEpochDay a < toEpochDay b := by
  rintro ⟨ya, ma, da⟩ ⟨yb, mb, db⟩ ha hb h
  simp only [SDate.valid] at ha hb
  obtain ⟨ham1, ham2, had1, had2⟩ := ha
  obtain ⟨hbm1, hbm2, hbd1, hbd2⟩ := hb
  simp only at h had2 hbd2
  rcases h with hy | ⟨hy, hm | ⟨hm, hd⟩⟩
  · have hA : cumDays ya ma + da ≤ 365 + (if isLeap ya then 1 else 0) :=
      cumDays_add_le ham1 ham2 had2
    have hS := daysBeforeYear_succ ya
    have hM := daysBeforeYear_mono (show ya + 1 ≤ yb by omega)
    have hC : (0 : Int) ≤ cumDays yb mb := cumDays_nonneg hbm1 hbm2
    simp only [toEpochDay]
    split_ifs at hA hS <;> omega
  · subst hy
    have hA : cumDays ya ma + daysInMonth ya ma ≤ cumDays ya mb :=
      cumDays_add_daysInMonth_le ham1 hm hbm2
    simp only [toEpochDay]
    omega
  · subst hy; subst hm
    simp only [toEpochDay]
    omega

lemma toEpochDay_le_iff {a b : SDate} (ha : a.valid) (hb : b.valid) :
    toEpochDay a ≤ toEpochDay b ↔ a.lexLE b := by
  constructor
  · intro hle
    by_contra hnot
    unfold SDate.lexLE at hnot
    push_neg at hnot
    have hstrict : b.y < a.y ∨ (b.y = a.y ∧ (b.m < a.m ∨ (b.m = a.m ∧ b.d < a.d))) := by
      omega
    have := toEpochDay_lt_of_lexLT hb ha hstrict
    omega
  · intro hlex
    rcases hlex with hy | ⟨hy, hm | ⟨hm, hd⟩⟩
    · exact le_of_lt (toEpochDay_lt_of_lexLT ha hb (Or.inl hy))
    · exact le_of_lt (toEpochDay_lt_of_lexLT ha hb (Or.inr ⟨hy, Or.inl hm⟩))
    · rcases lt_or_eq_of_le hd with hd' | hd'
      · exact le_of_lt (toEpochDay_lt_of_lexLT ha hb (Or.inr ⟨hy, Or.inr ⟨hm, hd'⟩⟩))
      · have : a = b := by cases a; cases b; simp_all
        rw [this]

lemma daysInMonth_pos {y m : Int} : 1 ≤ daysInMonth y m := by
  unfold daysInMonth; split_ifs <;> omega

lemma addMonthsD_valid {dt : SDate} (h : dt.valid) (n : Int) :
    (addMonthsD dt n).valid := by
  obtain ⟨h1, h2, h3, h4⟩ := h
  unfold addMonthsD SDate.valid
  simp only
  refine ⟨by omega, by omega, le_min h3 daysInMonth_pos, min_le_right _ _⟩

/-- **C1.** For every due date `d` and reference day `t` (both valid calendar
dates), the active/expired classification shared by the dashboard active
counts, the per-server active counts and the customer-list status badge
returns `true` exactly when `d` is on or after `t` in calendar order; in
particular the boundary case `d = t` (due today) is classified active. -/
theorem isActive_iff_dueDate_ge (d t : SDate) (hd : d.valid) (ht : t.valid) :
    (isActiveD d t = true ↔ t.lexLE d) ∧ isActiveD d d = true := by
  constructor
  · rw [← toEpochDay_le_iff ht hd]
    simp only [isActiveD, Bool.or_eq_true, decide_eq_true_eq, beq_iff_eq]
    omega
  · simp [isActiveD]

theorem isActive_iff_dueDate_ge_witness :
    ((⟨2024, 6, 15⟩ : SDate).valid ∧ (⟨2024, 6, 15⟩ : SDate).valid) ∧
      ((isActiveD ⟨2024, 6, 15⟩ ⟨2024, 6, 15⟩ = true ↔
          SDate.lexLE ⟨2024, 6, 15⟩ ⟨2024, 6, 15⟩) ∧
        isActiveD ⟨2024, 6, 15⟩ ⟨2024, 6, 15⟩ = true) :=
  ⟨⟨by decide, by decide⟩,
    isActive_iff_dueDate_ge ⟨2024, 6, 15⟩ ⟨2024, 6, 15⟩ (by decide) (by decide)⟩

/-- **C2.** For every current due date, reference day and plan length
`m ≥ 1` (both dates valid), the renewal rollover of `confirmRenew` yields
`currentDueDate + m` months when the subscription is active relative to
today and `today + m` months when it has expired, with calendar-correct
end-of-month clamping (the result is always a valid date); in particular
due 2024-01-31, today 2024-01-15, m = 1 gives 2024-02-29, and due
2024-01-01, today 2024-03-15, m = 1 gives 2024-04-15. -/
theorem rolloverDueDate_spec (cur today : SDate) (m : Int)
    (hcur : cur.valid) (ht : today.valid) (_hm : 1 ≤ m) :
    (isActiveD cur today = true → rolloverDueDate cur today m = addMonthsD cur m) ∧
    (isActiveD cur today = false → rolloverDueDate cur today m = addMonthsD today m) ∧
    (rolloverDueDate cur today m).valid ∧
    rolloverDueDate ⟨2024, 1, 31⟩ ⟨2024, 1, 15⟩ 1 = ⟨2024, 2, 29⟩ ∧
    rolloverDueDate ⟨2024, 1, 1⟩ ⟨2024, 3, 15⟩ 1 = ⟨2024, 4, 15⟩ := by
  refine ⟨?_, ?_, ?_, by decide, by decide⟩
  · intro h; simp [rolloverDueDate, h]
  · intro h; simp [rolloverDueDate, h]
  · unfold rolloverDueDate
    split_ifs
    · exact addMonthsD_valid hcur m
    · exact addMonthsD_valid ht m

theorem rolloverDueDate_spec_witness :
    ((⟨2024, 1, 31⟩ : SDate).valid ∧ (⟨2024, 1, 15⟩ : SDate).valid ∧ (1 : Int) ≤ 1) ∧
      ((isActiveD ⟨2024, 1, 31⟩ ⟨2024, 1, 15⟩ = true →
          rolloverDueDate ⟨2024, 1, 31⟩ ⟨2024, 1, 15⟩ 1 = addMonthsD ⟨2024, 1, 31⟩ 1) ∧
        (isActiveD ⟨2024, 1, 31⟩ ⟨2024, 1, 15⟩ = false →
          rolloverDueDate ⟨2024, 1, 31⟩ ⟨2024, 1, 15⟩ 1 = addMonthsD ⟨2024, 1, 15⟩ 1) ∧
        (rolloverDueDate ⟨2024, 1, 31⟩ ⟨2024, 1, 15⟩ 1).valid ∧
        rolloverDueDate ⟨2024, 1, 31⟩ ⟨2024, 1, 15⟩ 1 = ⟨2024, 2, 29⟩ ∧
        rolloverDueDate ⟨2024, 1, 1⟩ ⟨2024, 3, 15⟩ 1 = ⟨2024, 4, 15⟩) :=
  ⟨⟨by decide, by decide, by decide⟩,
    rolloverDueDate_spec ⟨2024, 1, 31⟩ ⟨2024, 1, 15⟩ 1 (by decide) (by decide) (by decide)⟩

/-! ## Domain entities

The five persisted entities (`types.ts`), with the fields the claims use.
The store-assigned `id` of `Renewal`/`ManualAddition` records plays no
role in any computation and is not modelled.  `Customer.dueDate` holds the
calendar day that its `YYYY-MM-DD` string denotes, and `Renewal.date` /
`ManualAddition.date` the instant their ISO timestamp denotes. -/

structure Server where
  id : String
  name : String
  costPerActive : ℚ
deriving DecidableEq, Repr

structure Plan where
  id : String
  name : String
  months : Int
  defaultPrice : ℚ
deriving DecidableEq, Repr

/-- An instant with a time-of-day: calendar day plus milliseconds within
the day. -/
structure Timestamp where
  y : Int
  m : Int
  d : Int
  msOfDay : Int
deriving DecidableEq, Repr

/-- The millisecond timestamp of an instant (relative to the 1970 epoch in
the local zone); this is the quantity date-fns comparisons order by. -/
def Timestamp.key (t : Timestamp) : Int :=
  toEpochDay ⟨t.y, t.m, t.d⟩ * 86400000 + t.msOfDay

structure Customer where
  id : String
  name : String
  phone : String
  serverId : String
  planId : String
  amountPaid : ℚ
  dueDate : SDate
  lastNotifiedDate : Option String
deriving DecidableEq, Repr

structure Renewal where
  customerId : String
  serverId : String
  planId : String
  amount : ℚ
  cost : ℚ
  date : Timestamp
deriving DecidableEq, Repr

structure ManualAddition where
  amount : ℚ
  description : String
  date : Timestamp
deriving DecidableEq, Repr

/-- JavaScript `x || fb` for numbers (`0`, `NaN` and `undefined` are falsy;
`none` models `NaN`/`undefined`). -/
def jsNumOr (x : Option ℚ) (fb : ℚ) : ℚ :=
  match x with
  | none => fb
  | some v => if v = 0 then fb else v

/-- JavaScript `x || fb` for integer-valued numbers. -/
def jsIntOr (x : Option Int) (fb : Int) : Int :=
  match x with
  | none => fb
  | some v => if v = 0 then fb else v

lemma jsNumOr_some_zero (v : ℚ) : jsNumOr (some v) 0 = v := by
  simp only [jsNumOr]
  split_ifs with h
  · exact h.symm
  · rfl

lemma foldl_add_map {α : Type} (f : α → ℚ) (l : List α) :
    ∀ init : ℚ, l.foldl (fun acc x => acc + f x) init = init + (l.map f).sum := by
  induction l with
  | nil => intro init; simp
  | cons x xs ih => intro init; simp [ih, List.sum_cons]; ring

/-! ## Dashboard global totals (`Dashboard` `useMemo`) -/

/-- `totalGross`: sum of `r.amount` over all renewals. -/
def grossValue (renewals : List Renewal) : ℚ :=
  renewals.foldl (fun acc r => acc + r.amount) 0

/-- `totalCost`: sum of `(r.cost || 0)` over all renewals. -/
def totalPaidToServers (renewals : List Renewal) : ℚ :=
  renewals.foldl (fun acc r => acc + jsNumOr (some r.cost) 0) 0

/-- `totalManualAdditions`: signed sum of all manual-addition amounts. -/
def totalManualAdditions (mas : List ManualAddition) : ℚ :=
  mas.foldl (fun acc a => acc + a.amount) 0

/-- `netValue`: `(totalGross - totalCost) + totalManualAdditions`. -/
def netValue (renewals : List Renewal) (mas : List ManualAddition) : ℚ :=
  (grossValue renewals - totalPaidToServers renewals) + totalManualAdditions mas

/-- **C3.** For every collection of renewals and manual additions, the
dashboard global totals satisfy: gross is the sum of renewal amounts, the
server cost is the sum of renewal costs, and net is gross minus cost plus
the signed sum of the manual additions. -/
theorem dashboard_totals_spec (renewals : List Renewal) (mas : List ManualAddition) :
    grossValue renewals = (renewals.map Renewal.amount).sum ∧
    totalPaidToServers renewals = (renewals.map Renewal.cost).sum ∧
    netValue renewals mas =
      ((renewals.map Renewal.amount).sum - (renewals.map Renewal.cost).sum) +
        (mas.map ManualAddition.amount).sum := by
  have hg : grossValue renewals = (renewals.map Renewal.amount).sum := by
    unfold grossValue; rw [foldl_add_map]; ring
  have hc : totalPaidToServers renewals = (renewals.map Renewal.cost).sum := by
    unfold totalPaidToServers
    simp only [jsNumOr_some_zero]
    rw [foldl_add_map]; ring
  have hm : totalManualAdditions mas = (mas.map ManualAddition.amount).sum := by
    unfold totalManualAdditions; rw [foldl_add_map]; ring
  exact ⟨hg, hc, by unfold netValue; rw [hg, hc, hm]⟩

/-! ## Monthly report (`Storage` view, `monthlyStats`) -/

structure MonthlyStats where
  gross : ℚ
  cost : ℚ
  net : ℚ
deriving DecidableEq, Repr

/-- date-fns `startOfMonth` of the selected month: day 1, midnight. -/
def startOfMonthTs (y m : Int) : Timestamp := ⟨y, m, 1, 0⟩

/-- date-fns `endOfMonth` of the selected month: last day, 23:59:59.999. -/
def endOfMonthTs (y m : Int) : Timestamp := ⟨y, m, daysInMonth y m, 86399999⟩

/-- date-fns `isWithinInterval` (inclusive on both endpoints), comparing
millisecond timestamps. -/
def tsWithin (t start stop : Timestamp) : Bool :=
  start.key ≤ t.key && t.key ≤ stop.key

/-- The `monthlyStats` memo of the Storage view: filter renewals and
manual additions to `[startOfMonth, endOfMonth]`, then
`gross` = renewal amounts + positive manual amounts,
`cost` = renewal costs + |sum of negative manual amounts|,
`net = gross - cost`. -/
def monthlyStats (selY selM : Int) (renewals : List Renewal)
    (manualAdditions : List ManualAddition) : MonthlyStats :=
  let start := startOfMonthTs selY selM
  let stop := endOfMonthTs selY selM
  let monthRenewals := renewals.filter fun r => tsWithin r.date start stop
  let monthAdditions := manualAdditions.filter fun a => tsWithin a.date start stop
  let gross := monthRenewals.foldl (fun acc r => acc + r.amount) 0 +
    (monthAdditions.filter fun a => 0 < a.amount).foldl (fun acc a => acc + a.amount) 0
  let cost := monthRenewals.foldl (fun acc r => acc + jsNumOr (some r.cost) 0) 0 +
    |(monthAdditions.filter fun a => a.amount < 0).foldl (fun acc a => acc + a.amount) 0|
  ⟨gross, cost, gross - cost⟩

/-- **C6.** For every selected month the monthly report includes exactly
the renewals and manual additions dated within
`[startOfMonth, endOfMonth]` inclusive, and computes gross as in-range
renewal amounts plus in-range positive manual amounts, cost as in-range
renewal costs plus the absolute value of the sum of in-range negative
manual amounts, and net as gross minus cost; in particular a renewal dated
2024-03-31T23:59:59 is included in the March gross while one dated
2024-04-01T00:00:01 is not. -/
theorem monthlyStats_spec (selY selM : Int) (rs : List Renewal)
    (mas : List ManualAddition) :
    (monthlyStats selY selM rs mas).gross =
      (((rs.filter fun r =>
          tsWithin r.date (startOfMonthTs selY selM) (endOfMonthTs selY selM)).map
            Renewal.amount).sum +
        (((mas.filter fun a =>
            tsWithin a.date (startOfMonthTs selY selM) (endOfMonthTs selY selM)).filter
              fun a => 0 < a.amount).map ManualAddition.amount).sum) ∧
    (monthlyStats selY selM rs mas).cost =
      (((rs.filter fun r =>
          tsWithin r.date (startOfMonthTs selY selM) (endOfMonthTs selY selM)).map
            Renewal.cost).sum +
        |(((mas.filter fun a =>
            tsWithin a.date (startOfMonthTs selY selM) (endOfMonthTs selY selM)).filter
              fun a => a.amount < 0).map ManualAddition.amount).sum|) ∧
    (monthlyStats selY selM rs mas).net =
      (monthlyStats selY selM rs mas).gross - (monthlyStats selY selM rs mas).cost ∧
    (∀ r : Renewal,
      r ∈ rs.filter (fun r =>
          tsWithin r.date (startOfMonthTs selY selM) (endOfMonthTs selY selM)) ↔
        (r ∈ rs ∧ (startOfMonthTs selY selM).key ≤ r.date.key ∧
          r.date.key ≤ (endOfMonthTs selY selM).key)) ∧
    (∀ a : ManualAddition,
      a ∈ mas.filter (fun a =>
          tsWithin a.date (startOfMonthTs selY selM) (endOfMonthTs selY selM)) ↔
        (a ∈ mas ∧ (startOfMonthTs selY selM).key ≤ a.date.key ∧
          a.date.key ≤ (endOfMonthTs selY selM).key)) ∧
    (monthlyStats 2024 3
        [⟨"c", "s", "p", 10, 0, ⟨2024, 3, 31, 86399000⟩⟩,
         ⟨"c", "s", "p", 20, 0, ⟨2024, 4, 1, 1000⟩⟩] []).gross = 10 := by
  refine ⟨?_, ?_, ?_, ?_, ?_, ?_⟩
  · simp only [monthlyStats]
    rw [foldl_add_map, foldl_add_map]
    ring
  · simp only [monthlyStats, jsNumOr_some_zero]
    rw [foldl_add_map, foldl_add_map]
    ring_nf
  · simp only [monthlyStats]
  · intro r
    simp [List.mem_filter, tsWithin]
  · intro a
    simp [List.mem_filter, tsWithin]
  · norm_num [monthlyStats, tsWithin, startOfMonthTs, endOfMonthTs, Timestamp.key,
      toEpochDay, daysBeforeYear, leapsBefore, cumDays, cumDaysBase, daysInMonth,
      isLeap, jsNumOr, List.filter]

/-! ## Expiring queue and pending notifications (`Dashboard`) -/

/-- Left-pad a nonnegative integer with zeros to the given width. -/
def padNum (width : Nat) (n : Int) : String :=
  let s := toString n.natAbs
  ⟨List.replicate (width - s.length) '0'⟩ ++ s

/-- `format(d, 'yyyy-MM-dd')` (dates in use have positive components). -/
def formatYMD (dt : SDate) : String :=
  padNum 4 dt.y ++ "-" ++ padNum 2 dt.m ++ "-" ++ padNum 2 dt.d

/-- Dashboard expiring queue: customers due within the last or next 7 days
(`daysUntilDue >= -7 && daysUntilDue <= 7`).  The view then sorts the
queue by due date, which only permutes it; the claims below concern
membership, so the sort is not modelled. -/
def expiringCustomers (customers : List Customer) (today : SDate) : List Customer :=
  customers.filter fun c =>
    -7 ≤ daysUntilDueD c.dueDate today && daysUntilDueD c.dueDate today ≤ 7

/-- Dashboard pending notifications: members of the expiring queue whose
due date is exactly 7 days out and whose `lastNotifiedDate` differs from
today's `yyyy-MM-dd` string. -/
def pendingNotifications (customers : List Customer) (today : SDate) : List Customer :=
  (expiringCustomers customers today).filter fun c =>
    daysUntilDueD c.dueDate today == 7 &&
      !(c.lastNotifiedDate == some (formatYMD today))

/-- The notify buttons' `updateCustomer(id, { lastNotifiedDate: format(today, 'yyyy-MM-dd') })`,
routed through the store's map-by-id update. -/
def markNotified (customers : List Customer) (id : String) (today : SDate) :
    List Customer :=
  customers.map fun c =>
    if c.id = id then { c with lastNotifiedDate := some (formatYMD today) } else c

/-- **C7.** A customer is pending notification exactly when the due date is
7 days out and `lastNotifiedDate` differs from today's date string; after a
notification is sent (setting `lastNotifiedDate` to today), no record with
that customer's id is pending for the same day, while the customer stays
in the expiring queue. -/
theorem pendingNotifications_spec (customers : List Customer) (today : SDate)
    (c : Customer) (hc : c ∈ customers) :
    (c ∈ pendingNotifications customers today ↔
      (daysUntilDueD c.dueDate today = 7 ∧
        c.lastNotifiedDate ≠ some (formatYMD today))) ∧
    (∀ c', c' ∈ markNotified customers c.id today → c'.id = c.id →
      c' ∉ pendingNotifications (markNotified customers c.id today) today) ∧
    (daysUntilDueD c.dueDate today = 7 →
      { c with lastNotifiedDate := some (formatYMD today) } ∈
        expiringCustomers (markNotified customers c.id today) today) := by
  refine ⟨?_, ?_, ?_⟩
  · simp only [pendingNotifications, expiringCustomers, List.mem_filter,
      Bool.and_eq_true, beq_iff_eq, Bool.not_eq_eq_eq_not, Bool.not_true,
      beq_eq_false_iff_ne, ne_eq, decide_eq_true_eq]
    constructor
    · rintro ⟨⟨_, _⟩, hd, hn⟩
      exact ⟨hd, hn⟩
    · rintro ⟨hd, hn⟩
      exact ⟨⟨hc, by omega⟩, hd, hn⟩
  · intro c' hc' hid hmem
    have hlast : c'.lastNotifiedDate = some (formatYMD today) := by
      simp only [markNotified, List.mem_map] at hc'
      obtain ⟨x, _, hfx⟩ := hc'
      by_cases hx : x.id = c.id
      · rw [if_pos hx] at hfx
        rw [← hfx]
      · rw [if_neg hx] at hfx
        rw [← hfx] at hid
        exact absurd hid hx
    simp only [pendingNotifications, expiringCustomers, List.mem_filter,
      Bool.and_eq_true, beq_iff_eq, Bool.not_eq_eq_eq_not, Bool.not_true,
      beq_eq_false_iff_ne, ne_eq, decide_eq_true_eq] at hmem
    exact hmem.2.2 hlast
  · intro hd
    simp only [expiringCustomers, List.mem_filter, Bool.and_eq_true,
      decide_eq_true_eq]
    constructor
    · simp only [markNotified, List.mem_map]
      exact ⟨c, hc, by simp⟩
    · exact ⟨by omega, by omega⟩

theorem pendingNotifications_spec_witness :
    ((⟨"c1", "Ana", "11", "s1", "p1", 30, ⟨2024, 1, 8⟩, none⟩ : Customer) ∈
        ([⟨"c1", "Ana", "11", "s1", "p1", 30, ⟨2024, 1, 8⟩, none⟩] : List Customer)) ∧
      ((⟨"c1", "Ana", "11", "s1", "p1", 30, ⟨2024, 1, 8⟩, none⟩ ∈
          pendingNotifications [⟨"c1", "Ana", "11", "s1", "p1", 30, ⟨2024, 1, 8⟩, none⟩]
            ⟨2024, 1, 1⟩ ↔
        (daysUntilDueD ⟨2024, 1, 8⟩ ⟨2024, 1, 1⟩ = 7 ∧
          (none : Option String) ≠ some (formatYMD ⟨2024, 1, 1⟩))) ∧
      (∀ c', c' ∈ markNotified [⟨"c1", "Ana", "11", "s1", "p1", 30, ⟨2024, 1, 8⟩, none⟩]
            "c1" ⟨2024, 1, 1⟩ → c'.id = "c1" →
          c' ∉ pendingNotifications
            (markNotified [⟨"c1", "Ana", "11", "s1", "p1", 30, ⟨2024, 1, 8⟩, none⟩]
              "c1" ⟨2024, 1, 1⟩) ⟨2024, 1, 1⟩) ∧
      (daysUntilDueD ⟨2024, 1, 8⟩ ⟨2024, 1, 1⟩ = 7 →
        (⟨"c1", "Ana", "11", "s1", "p1", 30, ⟨2024, 1, 8⟩,
            some (formatYMD ⟨2024, 1, 1⟩)⟩ : Customer) ∈
          expiringCustomers
            (markNotified [⟨"c1", "Ana", "11", "s1", "p1", 30, ⟨2024, 1, 8⟩, none⟩]
              "c1" ⟨2024, 1, 1⟩) ⟨2024, 1, 1⟩)) :=
  ⟨List.mem_singleton.mpr rfl,
    pendingNotifications_spec [⟨"c1", "Ana", "11", "s1", "p1", 30, ⟨2024, 1, 8⟩, none⟩]
      ⟨2024, 1, 1⟩ ⟨"c1", "Ana", "11", "s1", "p1", 30, ⟨2024, 1, 8⟩, none⟩
      (List.mem_singleton.mpr rfl)⟩

/-! ## JavaScript string/number primitives

Character-level model of the string operations the views perform on user
input.  `jsParseFloat` models ECMAScript `parseFloat` on the decimal
literals this repository feeds it (optional sign, digits, optional
fraction; longest numeric prefix, trailing characters ignored); the
exponent/hex forms never produced by the amount fields are not modelled.
`none` models `NaN`. -/

/-- ASCII decimal digit test. -/
def isDigitCh (c : Char) : Bool := '0' ≤ c && c ≤ '9'

/-- Whitespace skipped by the numeric parsers (the subset relevant to the
inputs modelled here). -/
def isSpaceCh (c : Char) : Bool := c = ' ' || c = '\t' || c = '\n' || c = '\r'

/-- Numeric value of a digit character. -/
def digitVal (c : Char) : ℕ := c.toNat - '0'.toNat

/-- Value of a digit string. -/
def digitsValN (l : List Char) : ℕ :=
  l.foldl (fun a c => a * 10 + digitVal c) 0

/-- The unsigned part of a `parseFloat` literal: longest digit prefix,
optionally followed by a point and a further digit run; everything after
it is ignored; no digits at all is `NaN`. -/
def parseFloatBody (l : List Char) : Option ℚ :=
  let ip := l.takeWhile isDigitCh
  let r1 := l.dropWhile isDigitCh
  match r1 with
  | '.' :: r2 =>
    let fp := r2.takeWhile isDigitCh
    if ip = [] ∧ fp = [] then none
    else some ((digitsValN ip : ℚ) + (digitsValN fp : ℚ) / 10 ^ fp.length)
  | _ => if ip = [] then none else some (digitsValN ip)

/-- ECMAScript `parseFloat` (decimal-literal subset, see above). -/
def jsParseFloat (l : List Char) : Option ℚ :=
  let t := l.dropWhile isSpaceCh
  match t with
  | '-' :: r => (parseFloatBody r).map Neg.neg
  | '+' :: r => parseFloatBody r
  | _ => parseFloatBody t

/-- JavaScript `s.replace(',', '.')`: replaces only the first occurrence. -/
def replaceFirstComma : List Char → List Char
  | [] => []
  | c :: r => if c = ',' then '.' :: r else c :: replaceFirstComma r

/-! ## Manual ledger entries (`Plans` view, `handleAddMoney`) -/

inductive MoneyAction
  | add
  | remove
deriving DecidableEq, Repr

/-- `handleAddMoney`: parse the amount text (first decimal comma
normalised to a point); only a finite value strictly greater than zero
appends a ledger entry — negated when the action is a removal — with the
description defaulting when empty; otherwise the ledger is untouched. -/
def handleAddMoney (moneyAction : MoneyAction) (moneyAmount : List Char)
    (moneyDescription : String) (now : Timestamp)
    (manualAdditions : List ManualAddition) : List ManualAddition :=
  match jsParseFloat (replaceFirstComma moneyAmount) with
  | none => manualAdditions
  | some amount0 =>
    if 0 < amount0 then
      manualAdditions ++
        [⟨(if moneyAction = MoneyAction.remove then -amount0 else amount0),
          (if moneyDescription = "" then
            (if moneyAction = MoneyAction.add then "Adição manual" else "Remoção manual")
          else moneyDescription), now⟩]
    else manualAdditions

/-- **C10.** A manual-addition submission appends a ledger entry only when
the entered amount (after comma normalisation) parses to a number strictly
greater than zero; an unparsable, zero or negative entry leaves the ledger
unchanged, and a removal appends the negated magnitude. -/
theorem handleAddMoney_spec (moneyAction : MoneyAction) (text : List Char)
    (desc : String) (now : Timestamp) (ledger : List ManualAddition) :
    (jsParseFloat (replaceFirstComma text) = none →
      handleAddMoney moneyAction text desc now ledger = ledger) ∧
    (∀ a, jsParseFloat (replaceFirstComma text) = some a → a ≤ 0 →
      handleAddMoney moneyAction text desc now ledger = ledger) ∧
    (∀ a, jsParseFloat (replaceFirstComma text) = some a → 0 < a →
      handleAddMoney moneyAction text desc now ledger =
        ledger ++
          [⟨(if moneyAction = MoneyAction.remove then -a else a),
            (if desc = "" then
              (if moneyAction = MoneyAction.add then "Adição manual"
                else "Remoção manual")
            else desc), now⟩]) := by
  refine ⟨?_, ?_, ?_⟩
  · intro h
    simp [handleAddMoney, h]
  · intro a ha hle
    simp only [handleAddMoney, ha]
    rw [if_neg (not_lt.mpr hle)]
  · intro a ha h0
    simp only [handleAddMoney, ha]
    rw [if_pos h0]

theorem handleAddMoney_spec_witness :
    jsParseFloat (replaceFirstComma ['3', '0']) = some 30 ∧ (0 : ℚ) < 30 ∧
      handleAddMoney MoneyAction.remove ['3', '0'] "" ⟨2024, 1, 1, 0⟩ [] =
        [⟨-30, "Remoção manual", ⟨2024, 1, 1, 0⟩⟩] := by
  have hp : jsParseFloat (replaceFirstComma ['3', '0']) = some ((30 : ℕ) : ℚ) := rfl
  have hp' : jsParseFloat (replaceFirstComma ['3', '0']) = some 30 := by
    rw [hp]; norm_num
  refine ⟨hp', by norm_num, ?_⟩
  have h := (handleAddMoney_spec MoneyAction.remove ['3', '0'] "" ⟨2024, 1, 1, 0⟩
    []).2.2 30 hp' (by norm_num)
  simpa using h

/-! ## New-customer creation (`Customers` view, `handleSubmit`, non-edit branch) -/

structure CustomerForm where
  name : String
  phone : String
  serverId : String
  planId : String
  amountPaid : List Char
  dueDate : SDate

/-- `handleSubmit` for a new customer: abort when the amount text does not
parse; otherwise append the customer under the fresh id and its founding
renewal, whose cost is `(server?.costPerActive || 0) * (plan?.months || 1)`. -/
def handleSubmitNew (servers : List Server) (plans : List Plan)
    (form : CustomerForm) (newId : String) (now : Timestamp)
    (customers : List Customer) (renewals : List Renewal) :
    List Customer × List Renewal :=
  match jsParseFloat (replaceFirstComma form.amountPaid) with
  | none => (customers, renewals)
  | some amount =>
    let server := servers.find? fun s => s.id == form.serverId
    let plan := plans.find? fun p => p.id == form.planId
    let cost := jsNumOr (server.map Server.costPerActive) 0 *
      ((jsIntOr (plan.map Plan.months) 1 : Int) : ℚ)
    (customers ++ [⟨newId, form.name, form.phone, form.serverId, form.planId,
        amount, form.dueDate, none⟩],
      renewals ++ [⟨newId, form.serverId, form.planId, amount, cost, now⟩])

lemma jsIntOr_some_of_pos {m : Int} (h : 1 ≤ m) : jsIntOr (some m) 1 = m := by
  simp only [jsIntOr]
  rw [if_neg (by omega)]

/-- **C5.** After the new-customer path with parsed amount `a` and a fresh
id, exactly one renewal referencing the new id exists, its amount (hence
the per-id amount sum) is `a`, and its cost is
`server.costPerActive × plan.months` (plan months ≥ 1 per the data-model
invariant), a missing server yielding cost 0 and a missing plan counting
as one month. -/
theorem handleSubmitNew_founding_renewal (servers : List Server)
    (plans : List Plan) (form : CustomerForm) (newId : String)
    (now : Timestamp) (customers : List Customer) (renewals : List Renewal)
    (a : ℚ) (hparse : jsParseFloat (replaceFirstComma form.amountPaid) = some a)
    (hfresh : ∀ r ∈ renewals, r.customerId ≠ newId) :
    (((handleSubmitNew servers plans form newId now customers renewals).2.filter
        fun r => r.customerId == newId).length = 1) ∧
    ((((handleSubmitNew servers plans form newId now customers renewals).2.filter
        fun r => r.customerId == newId).map Renewal.amount).sum = a) ∧
    (∀ r ∈ (handleSubmitNew servers plans form newId now customers renewals).2,
      r.customerId = newId →
        (∀ s, servers.find? (fun s => s.id == form.serverId) = some s →
          ∀ p, plans.find? (fun p => p.id == form.planId) = some p →
            1 ≤ p.months → r.cost = s.costPerActive * (p.months : ℚ)) ∧
        (servers.find? (fun s => s.id == form.serverId) = none → r.cost = 0) ∧
        (∀ s, servers.find? (fun s => s.id == form.serverId) = some s →
          plans.find? (fun p => p.id == form.planId) = none →
            r.cost = s.costPerActive * 1)) := by
  have hfilter : (renewals.filter fun r => r.customerId == newId) = [] := by
    rw [List.filter_eq_nil_iff]
    intro r hr
    simpa using hfresh r hr
  have hout : (handleSubmitNew servers plans form newId now customers renewals).2 =
      renewals ++
        [⟨newId, form.serverId, form.planId, a,
          jsNumOr ((servers.find? fun s => s.id == form.serverId).map
              Server.costPerActive) 0 *
            ((jsIntOr ((plans.find? fun p => p.id == form.planId).map
              Plan.months) 1 : Int) : ℚ), now⟩] := by
    simp only [handleSubmitNew, hparse]
  refine ⟨?_, ?_, ?_⟩
  · rw [hout, List.filter_append, hfilter]
    simp
  · rw [hout, List.filter_append, hfilter]
    simp
  · intro r hr hrid
    rw [hout] at hr
    rcases List.mem_append.mp hr with hmem | hmem
    · exact absurd hrid (hfresh r hmem)
    · have hreq := List.mem_singleton.mp hmem
      refine ⟨?_, ?_, ?_⟩
      · intro s hs p hp hmon
        rw [hreq]
        simp only [hs, hp, Option.map_some']
        rw [jsNumOr_some_zero, jsIntOr_some_of_pos hmon]
      · intro hs
        rw [hreq]
        simp only [hs, Option.map_none']
        simp [jsNumOr]
      · intro s hs hp
        rw [hreq]
        simp only [hs, hp, Option.map_some', Option.map_none']
        rw [jsNumOr_some_zero]
        simp [jsIntOr]

theorem handleSubmitNew_founding_renewal_witness :
    jsParseFloat (replaceFirstComma ['3', '0']) = some 30 ∧
    (∀ r ∈ ([] : List Renewal), r.customerId ≠ "c9") ∧
    ((((handleSubmitNew [⟨"s1", "S", 5⟩] [⟨"p1", "Mensal", 1, 30⟩]
          ⟨"Ana", "11", "s1", "p1", ['3', '0'], ⟨2024, 7, 1⟩⟩ "c9"
          ⟨2024, 6, 1, 0⟩ [] []).2.filter
        fun r => r.customerId == "c9").length = 1) ∧
    ((((handleSubmitNew [⟨"s1", "S", 5⟩] [⟨"p1", "Mensal", 1, 30⟩]
          ⟨"Ana", "11", "s1", "p1", ['3', '0'], ⟨2024, 7, 1⟩⟩ "c9"
          ⟨2024, 6, 1, 0⟩ [] []).2.filter
        fun r => r.customerId == "c9").map Renewal.amount).sum = 30) ∧
    (∀ r ∈ (handleSubmitNew [⟨"s1", "S", 5⟩] [⟨"p1", "Mensal", 1, 30⟩]
          ⟨"Ana", "11", "s1", "p1", ['3', '0'], ⟨2024, 7, 1⟩⟩ "c9"
          ⟨2024, 6, 1, 0⟩ [] []).2,
      r.customerId = "c9" →
        (∀ s, ([⟨"s1", "S", 5⟩] : List Server).find? (fun s => s.id == "s1") = some s →
          ∀ p, ([⟨"p1", "Mensal", 1, 30⟩] : List Plan).find? (fun p => p.id == "p1") = some p →
            1 ≤ p.months → r.cost = s.costPerActive * (p.months : ℚ)) ∧
        (([⟨"s1", "S", 5⟩] : List Server).find? (fun s => s.id == "s1") = none → r.cost = 0) ∧
        (∀ s, ([⟨"s1", "S", 5⟩] : List Server).find? (fun s => s.id == "s1") = some s →
          ([⟨"p1", "Mensal", 1, 30⟩] : List Plan).find? (fun p => p.id == "p1") = none →
            r.cost = s.costPerActive * 1))) := by
  have hp : jsParseFloat (replaceFirstComma ['3', '0']) = some ((30 : ℕ) : ℚ) := rfl
  have hp' : jsParseFloat (replaceFirstComma ['3', '0']) = some 30 := by
    rw [hp]; norm_num
  have hf : ∀ r ∈ ([] : List Renewal), r.customerId ≠ "c9" := by simp
  exact ⟨hp', hf,
    handleSubmitNew_founding_renewal [⟨"s1", "S", 5⟩] [⟨"p1", "Mensal", 1, 30⟩]
      ⟨"Ana", "11", "s1", "p1", ['3', '0'], ⟨2024, 7, 1⟩⟩ "c9" ⟨2024, 6, 1, 0⟩
      [] [] 30 hp' hf⟩

/-! ## Renewal flow (`confirmRenew` in Dashboard and Customers)

Unlike every other numeric entry point in the repository (`handleSubmit`,
the Servers form, `handleSavePlan`, `handleAddMoney`), `confirmRenew`
applies no `isNaN` guard to `parseFloat(renewData.amountPaid)` and stores
the parse result as-is, so the amounts flowing through it are `Option ℚ`
(`none` = `NaN`). -/

structure JCustomer where
  id : String
  name : String
  phone : String
  serverId : String
  planId : String
  amountPaid : Option ℚ
  dueDate : SDate
  lastNotifiedDate : Option String
deriving DecidableEq, Repr

structure JRenewal where
  customerId : String
  serverId : String
  planId : String
  amount : Option ℚ
  cost : ℚ
deriving DecidableEq, Repr

structure RenewData where
  customerId : String
  serverId : String
  planId : String
  amountPaid : List Char
deriving DecidableEq, Repr

/-- `confirmRenew`: when the customer and the plan are found, overwrite
the customer's server, plan, amount and due date (rollover policy) and
append a renewal record; the parsed amount is written through without any
validity check.  When either lookup fails, nothing happens. -/
def confirmRenew (customers : List JCustomer) (plans : List Plan)
    (servers : List Server) (renewals : List JRenewal) (today : SDate)
    (renewData : RenewData) : List JCustomer × List JRenewal :=
  match customers.find? (fun c => c.id == renewData.customerId),
      plans.find? (fun p => p.id == renewData.planId) with
  | some customer, some plan =>
    let newDueDate := rolloverDueDate customer.dueDate today plan.months
    let amt := jsParseFloat (replaceFirstComma renewData.amountPaid)
    let customers' := customers.map fun c =>
      if c.id == customer.id then
        { c with serverId := renewData.serverId, planId := renewData.planId,
                 amountPaid := amt, dueDate := newDueDate }
      else c
    let server := servers.find? fun s => s.id == renewData.serverId
    let cost := jsNumOr (server.map Server.costPerActive) 0 *
      ((jsIntOr (some plan.months) 1 : Int) : ℚ)
    (customers',
      renewals ++ [⟨customer.id, renewData.serverId, renewData.planId, amt, cost⟩])
  | _, _ => (customers, renewals)

/-- **C4.** Evaluating `confirmRenew` at an unparsable amount text:
contrary to the abort-without-mutation policy, the operation still mutates
state — the customer's stored amount becomes `NaN` (`none`), the due date
is rolled over, and a renewal with a `NaN` amount is appended. -/
theorem confirmRenew_unparsable_still_mutates :
    ((confirmRenew [⟨"c1", "Ana", "11", "s1", "p1", some 30, ⟨2024, 5, 1⟩, none⟩]
        [⟨"p1", "Mensal", 1, 30⟩] [] [] ⟨2024, 4, 1⟩
        ⟨"c1", "s1", "p1", ['a', 'b', 'c']⟩).2.length = 1) ∧
    (∀ r ∈ (confirmRenew [⟨"c1", "Ana", "11", "s1", "p1", some 30, ⟨2024, 5, 1⟩, none⟩]
        [⟨"p1", "Mensal", 1, 30⟩] [] [] ⟨2024, 4, 1⟩
        ⟨"c1", "s1", "p1", ['a', 'b', 'c']⟩).2, r.amount = none) ∧
    (∀ c ∈ (confirmRenew [⟨"c1", "Ana", "11", "s1", "p1", some 30, ⟨2024, 5, 1⟩, none⟩]
        [⟨"p1", "Mensal", 1, 30⟩] [] [] ⟨2024, 4, 1⟩
        ⟨"c1", "s1", "p1", ['a', 'b', 'c']⟩).1,
      c.amountPaid = none ∧ c.dueDate = ⟨2024, 6, 1⟩) := by
  refine ⟨by decide, by decide, by decide⟩

/-! ## Plan store initialisation and deletion (`store.ts`) -/

/-- Default plans of the first store variant. -/
def defaultPlans1 : List Plan :=
  [⟨"1", "Mensal", 1, 30⟩, ⟨"2", "Trimestral", 3, 80⟩,
   ⟨"gratuito", "Gratuito", 1, 0⟩]

/-- First store variant: the plans initializer returns the defaults when
nothing was persisted and otherwise appends the Gratuito plan exactly when
no persisted plan has id `"gratuito"`. -/
def loadPlans1 (saved : Option (List Plan)) : List Plan :=
  match saved with
  | none => defaultPlans1
  | some loaded =>
    match loaded.find? (fun p => p.id == "gratuito") with
    | none => loaded ++ [⟨"gratuito", "Gratuito", 1, 0⟩]
    | some _ => loaded

/-- Default plans of the second store variant. -/
def defaultPlans2 : List Plan :=
  [⟨"0", "Gratuito", 1, 0⟩, ⟨"1", "Mensal", 1, 35⟩, ⟨"2", "Trimestral", 3, 90⟩,
   ⟨"3", "Semestral", 6, 160⟩, ⟨"4", "Anual", 12, 300⟩]

/-- Second store variant: prepends a fresh Gratuito plan exactly when no
loaded plan carries the name `"Gratuito"`. -/
def loadPlans2 (saved : Option (List Plan)) : List Plan :=
  let parsed := match saved with
    | none => defaultPlans2
    | some loaded => loaded
  match parsed.find? (fun p => p.name == "Gratuito") with
  | none => ⟨"0", "Gratuito", 1, 0⟩ :: parsed
  | some _ => parsed

/-- First store variant `deletePlan`: refuses the id `"gratuito"`,
otherwise removes the plan with the given id. -/
def deletePlan1 (id : String) (plans : List Plan) : List Plan :=
  if id = "gratuito" then plans
  else plans.filter fun item => item.id ≠ id

/-- **C9** (counterexample): when the persisted data contains a plan that
reuses the reserved id `"gratuito"` under a different name and price, the
loaded plan set contains no plan named `"Gratuito"` with price 0 — the
initializer only checks the id. -/
theorem loadPlans_gratuito_counterexample :
    ¬ ∃ p ∈ loadPlans1 (some [⟨"gratuito", "Premium", 1, 10⟩]),
        p.name = "Gratuito" ∧ p.defaultPrice = 0 := by
  decide

/-- **C9** (amended).  After loading, the first store variant's plan set
always contains a plan with the reserved id `"gratuito"` — the Gratuito
plan (name "Gratuito", price 0) being synthesized exactly when that id is
absent — and the second variant's always contains a plan named
`"Gratuito"`, synthesized with price 0 exactly when the name is absent;
`deletePlan` never removes a plan whose id is `"gratuito"`. -/
theorem loadPlans_gratuito_spec :
    (∀ saved : Option (List Plan), ∃ p ∈ loadPlans1 saved, p.id = "gratuito") ∧
    (∀ loaded : List Plan, (∀ p ∈ loaded, p.id ≠ "gratuito") →
      loadPlans1 (some loaded) = loaded ++ [⟨"gratuito", "Gratuito", 1, 0⟩]) ∧
    (∀ saved : Option (List Plan), ∃ p ∈ loadPlans2 saved, p.name = "Gratuito") ∧
    (∀ loaded : List Plan, (∀ p ∈ loaded, p.name ≠ "Gratuito") →
      loadPlans2 (some loaded) = ⟨"0", "Gratuito", 1, 0⟩ :: loaded) ∧
    (∀ (plans : List Plan) (delId : String) (p : Plan), p ∈ plans →
      p.id = "gratuito" → p ∈ deletePlan1 delId plans) := by
  refine ⟨?_, ?_, ?_, ?_, ?_⟩
  · intro saved
    match saved with
    | none => exact ⟨⟨"gratuito", "Gratuito", 1, 0⟩, by simp [loadPlans1, defaultPlans1], rfl⟩
    | some loaded =>
      cases hfind : loaded.find? (fun p => p.id == "gratuito") with
      | none =>
        refine ⟨⟨"gratuito", "Gratuito", 1, 0⟩, ?_, rfl⟩
        simp [loadPlans1, hfind]
      | some q =>
        refine ⟨q, ?_, ?_⟩
        · simp only [loadPlans1, hfind]
          exact List.mem_of_find?_eq_some hfind
        · have := List.find?_some hfind
          simpa using this
  · intro loaded h
    have hfind : loaded.find? (fun p => p.id == "gratuito") = none := by
      rw [List.find?_eq_none]
      intro p hp
      simpa using h p hp
    simp [loadPlans1, hfind]
  · intro saved
    match saved with
    | none =>
      refine ⟨⟨"0", "Gratuito", 1, 0⟩, ?_, rfl⟩
      have hfind : defaultPlans2.find? (fun p => p.name == "Gratuito") =
          some ⟨"0", "Gratuito", 1, 0⟩ := by
        simp [defaultPlans2]
      simp only [loadPlans2, hfind]
      simp [defaultPlans2]
    | some loaded =>
      cases hfind : loaded.find? (fun p => p.name == "Gratuito") with
      | none =>
        refine ⟨⟨"0", "Gratuito", 1, 0⟩, ?_, rfl⟩
        simp [loadPlans2, hfind]
      | some q =>
        refine ⟨q, ?_, ?_⟩
        · simp only [loadPlans2, hfind]
          exact List.mem_of_find?_eq_some hfind
        · have := List.find?_some hfind
          simpa using this
  · intro loaded h
    have hfind : loaded.find? (fun p => p.name == "Gratuito") = none := by
      rw [List.find?_eq_none]
      intro p hp
      simpa using h p hp
    simp [loadPlans2, hfind]
  · intro plans delId p hp hid
    unfold deletePlan1
    split_ifs with hdel
    · exact hp
    · rw [List.mem_filter]
      refine ⟨hp, ?_⟩
      simp only [decide_eq_true_eq]
      rw [hid]
      intro hcontra
      exact hdel hcontra.symm

theorem loadPlans_gratuito_spec_witness :
    (∀ p ∈ ([⟨"1", "Mensal", 1, 30⟩] : List Plan), p.id ≠ "gratuito") ∧
      loadPlans1 (some [⟨"1", "Mensal", 1, 30⟩]) =
        [⟨"1", "Mensal", 1, 30⟩] ++ [⟨"gratuito", "Gratuito", 1, 0⟩] :=
  ⟨by decide, loadPlans_gratuito_spec.2.1 [⟨"1", "Mensal", 1, 30⟩] (by decide)⟩

/-! ## Calendar-date parsers (`parseLocalDate`)

The Dashboard/Servers views and the Customers view each define their own
`parseLocalDate`.  The result of a JavaScript `Date` construction is
modelled by `JsDateRes`: an invalid date, the local midnight of a civil
day (identified by its day number), or — for the Dashboard parser's
wrong-segment-count branch `new Date(dateStr)` — a value delegated to the
host environment's native string parser, which lives outside this
repository. -/

inductive JsDateRes
  | invalid
  | localMidnight (epochDay : Int)
  | nativeParse (s : List Char)
deriving DecidableEq, Repr

/-- The unsigned part of a `Number()` literal: digits with an optional
point and fraction, spanning the whole remainder. -/
def numberBody (l : List Char) : Option ℚ :=
  let ip := l.takeWhile isDigitCh
  let r1 := l.dropWhile isDigitCh
  match r1 with
  | [] => if ip = [] then none else some ((digitsValN ip : ℕ) : ℚ)
  | '.' :: r2 =>
    let fp := r2.takeWhile isDigitCh
    let r3 := r2.dropWhile isDigitCh
    if r3 ≠ [] then none
    else if ip = [] ∧ fp = [] then none
    else some ((digitsValN ip : ℚ) + (digitsValN fp : ℚ) / 10 ^ fp.length)
  | _ => none

/-- ECMAScript `Number()` on the decimal forms a date segment can take:
the trimmed empty string is `0`, otherwise an optional sign followed by a
decimal literal spanning the whole string; anything else is `none` (NaN).
(The hex/exponent/infinity forms never produced by date segments are not
modelled.) -/
def jsNumber (l : List Char) : Option ℚ :=
  let t := ((l.dropWhile isSpaceCh).reverse.dropWhile isSpaceCh).reverse
  match t with
  | [] => some 0
  | x :: r =>
    if x = '-' then (numberBody r).map Neg.neg
    else if x = '+' then numberBody r
    else numberBody (x :: r)

/-- ECMAScript ToIntegerOrInfinity on a finite value: truncation toward
zero. -/
def jsTrunc (q : ℚ) : Int := if 0 ≤ q then ⌊q⌋ else ⌈q⌉

/-- `new Date(y, monthIndex, day)` on finite arguments: truncate, apply
the two-digit-year rule (0–99 ↦ 1900 + y), floor-normalise the month and
fold the day offset into the day number of the resulting local midnight. -/
def newDateLocal (yq mq dq : ℚ) : JsDateRes :=
  let y0 := jsTrunc yq
  let mi := jsTrunc mq
  let dd := jsTrunc dq
  let y1 := if 0 ≤ y0 ∧ y0 ≤ 99 then y0 + 1900 else y0
  let ym := y1 + mi / 12
  let mn := mi % 12
  JsDateRes.localMidnight (toEpochDay ⟨ym, mn + 1, 1⟩ + (dd - 1))

/-- JavaScript `String.split` with a single-character separator. -/
def splitOnChar (c : Char) : List Char → List (List Char)
  | [] => [[]]
  | x :: xs =>
    if x = c then [] :: splitOnChar c xs
    else
      match splitOnChar c xs with
      | [] => [[x]]
      | h :: t => (x :: h) :: t

/-- `parseLocalDate` of the Dashboard and Servers views: null/undefined
and the empty string are invalid; the part before the first `T` is split
on `-`; with three segments the numeric values feed `new Date(y, m-1, d)`
(any NaN making the date invalid); with any other segment count the whole
string falls back to the native `Date(dateStr)` parser. -/
def parseLocalDateDash (dateStr : Option (List Char)) : JsDateRes :=
  match dateStr with
  | none => JsDateRes.invalid
  | some s =>
    if s = [] then JsDateRes.invalid
    else
      match splitOnChar 'T' s with
      | [] => JsDateRes.invalid
      | datePart :: _ =>
        match splitOnChar '-' datePart with
        | [ys, ms, ds] =>
          match jsNumber ys, jsNumber ms, jsNumber ds with
          | some y, some m, some d => newDateLocal y (m - 1) d
          | _, _, _ => JsDateRes.invalid
        | _ => JsDateRes.nativeParse s

/-- `parseLocalDate` of the Customers view: split the whole string on
`-`, convert the first three segments with `Number` (a missing segment is
`undefined`, hence NaN), and build `new Date(y, m-1, d)`; any NaN
component makes the date invalid.  Nothing strips a time suffix here. -/
def parseLocalDateCustomers (dateStr : List Char) : JsDateRes :=
  let nums := (splitOnChar '-' dateStr).map jsNumber
  match nums.getD 0 none, nums.getD 1 none, nums.getD 2 none with
  | some y, some m, some d => newDateLocal y (m - 1) d
  | _, _, _ => JsDateRes.invalid

/-! ### Parser lemmas -/

lemma not_mem_of_digits {l : List Char} (hdig : ∀ x ∈ l, isDigitCh x = true)
    {c : Char} (hc : isDigitCh c = false) : c ∉ l := by
  intro hm
  have := hdig c hm
  rw [this] at hc
  cases hc

lemma splitOnChar_of_not_mem {c : Char} {l : List Char} (h : c ∉ l) :
    splitOnChar c l = [l] := by
  induction l with
  | nil => rfl
  | cons x xs ih =>
    have hx : x ≠ c := fun hxc => h (hxc ▸ List.mem_cons_self x xs)
    have hxs : c ∉ xs := fun hm => h (List.mem_cons_of_mem x hm)
    simp only [splitOnChar, if_neg hx, ih hxs]

lemma splitOnChar_append {c : Char} {l : List Char} (h : c ∉ l)
    (rest : List Char) :
    splitOnChar c (l ++ c :: rest) = l :: splitOnChar c rest := by
  induction l with
  | nil =>
    simp [splitOnChar]
  | cons x xs ih =>
    have hx : x ≠ c := fun hxc => h (hxc ▸ List.mem_cons_self x xs)
    have hxs : c ∉ xs := fun hm => h (List.mem_cons_of_mem x hm)
    simp only [List.cons_append, splitOnChar, if_neg hx, List.append_eq]
    rw [ih hxs]

lemma digit_not_space {x : Char} (h : isDigitCh x = true) : isSpaceCh x = false := by
  by_contra hsp
  rw [Bool.not_eq_false] at hsp
  simp only [isSpaceCh, Bool.or_eq_true, decide_eq_true_eq] at hsp
  simp only [isDigitCh, Bool.and_eq_true, decide_eq_true_eq] at h
  rcases hsp with ((rfl | rfl) | rfl) | rfl <;> revert h <;> decide

lemma takeWhile_eq_self_of_all {p : Char → Bool} {l : List Char}
    (h : ∀ x ∈ l, p x = true) : l.takeWhile p = l := by
  induction l with
  | nil => rfl
  | cons x xs ih =>
    rw [List.takeWhile_cons, h x (List.mem_cons_self x xs)]
    simp [ih fun a ha => h a (List.mem_cons_of_mem _ ha)]

lemma dropWhile_eq_nil_of_all {p : Char → Bool} {l : List Char}
    (h : ∀ x ∈ l, p x = true) : l.dropWhile p = [] := by
  induction l with
  | nil => rfl
  | cons x xs ih =>
    rw [List.dropWhile_cons, h x (List.mem_cons_self x xs)]
    simp [ih fun a ha => h a (List.mem_cons_of_mem _ ha)]

lemma trim_digits {l : List Char} (hdig : ∀ x ∈ l, isDigitCh x = true) :
    ((l.dropWhile isSpaceCh).reverse.dropWhile isSpaceCh).reverse = l := by
  have h1 : l.dropWhile isSpaceCh = l := by
    cases l with
    | nil => rfl
    | cons x xs =>
      rw [List.dropWhile_cons, digit_not_space (hdig x (List.mem_cons_self x xs))]
      simp
  rw [h1]
  cases hr : l.reverse with
  | nil =>
    have : l = [] := by simpa using congrArg List.reverse hr
    simp [this]
  | cons x xs =>
    have hx : x ∈ l := by
      have : x ∈ l.reverse := hr ▸ List.mem_cons_self x xs
      exact List.mem_reverse.mp this
    rw [List.dropWhile_cons, digit_not_space (hdig x hx)]
    simp only [Bool.false_eq_true, if_false]
    rw [← hr, List.reverse_reverse]

lemma numberBody_digits {l : List Char} (hne : l ≠ [])
    (hdig : ∀ x ∈ l, isDigitCh x = true) :
    numberBody l = some ((digitsValN l : ℕ) : ℚ) := by
  simp only [numberBody]
  rw [takeWhile_eq_self_of_all hdig, dropWhile_eq_nil_of_all hdig]
  simp [hne]

lemma jsNumber_digits {l : List Char} (hne : l ≠ [])
    (hdig : ∀ x ∈ l, isDigitCh x = true) :
    jsNumber l = some ((digitsValN l : ℕ) : ℚ) := by
  simp only [jsNumber]
  rw [trim_digits hdig]
  cases l with
  | nil => exact absurd rfl hne
  | cons x xs =>
    have hx := hdig x (List.mem_cons_self x xs)
    have hxm : x ≠ '-' := by rintro rfl; revert hx; decide
    have hxp : x ≠ '+' := by rintro rfl; revert hx; decide
    show (if x = '-' then (numberBody xs).map Neg.neg
      else if x = '+' then numberBody xs else numberBody (x :: xs)) =
        some ((digitsValN (x :: xs) : ℕ) : ℚ)
    rw [if_neg hxm, if_neg hxp]
    exact numberBody_digits hne hdig

lemma jsTrunc_intCast (k : Int) : jsTrunc ((k : ℚ)) = k := by
  unfold jsTrunc
  split_ifs <;> simp

lemma newDateLocal_in_range {y m d : Int} (hy : 100 ≤ y) (hm1 : 1 ≤ m)
    (hm2 : m ≤ 12) :
    newDateLocal ((y : ℚ)) ((m : ℚ) - 1) ((d : ℚ)) =
      JsDateRes.localMidnight (toEpochDay ⟨y, m, d⟩) := by
  simp only [newDateLocal]
  have h2 : jsTrunc ((m : ℚ) - 1) = m - 1 := by
    have he : ((m : ℚ) - 1) = (((m - 1 : Int)) : ℚ) := by push_cast; ring
    rw [he, jsTrunc_intCast]
  rw [jsTrunc_intCast, h2, jsTrunc_intCast]
  rw [if_neg (by omega)]
  have hdiv : (m - 1) / 12 = 0 := by omega
  have hmod : (m - 1) % 12 = m - 1 := by omega
  rw [hdiv, hmod]
  have hm' : m - 1 + 1 = m := by ring
  rw [hm']
  simp only [JsDateRes.localMidnight.injEq, toEpochDay, add_zero]
  omega

lemma parseDatePart_split {ys ms ds : List Char}
    (hys : ∀ x ∈ ys, isDigitCh x = true) (hms : ∀ x ∈ ms, isDigitCh x = true)
    (hds : ∀ x ∈ ds, isDigitCh x = true) :
    splitOnChar '-' (ys ++ '-' :: (ms ++ '-' :: ds)) = [ys, ms, ds] := by
  rw [splitOnChar_append (not_mem_of_digits hys (by decide)),
      splitOnChar_append (not_mem_of_digits hms (by decide)),
      splitOnChar_of_not_mem (not_mem_of_digits hds (by decide))]

lemma T_not_mem_datePart {ys ms ds : List Char}
    (hys : ∀ x ∈ ys, isDigitCh x = true) (hms : ∀ x ∈ ms, isDigitCh x = true)
    (hds : ∀ x ∈ ds, isDigitCh x = true) :
    'T' ∉ (ys ++ '-' :: (ms ++ '-' :: ds)) := by
  intro hm
  simp only [List.mem_append, List.mem_cons] at hm
  rcases hm with h | h | h | h | h
  · exact not_mem_of_digits hys (by decide) h
  · exact absurd h (by decide)
  · exact not_mem_of_digits hms (by decide) h
  · exact absurd h (by decide)
  · exact not_mem_of_digits hds (by decide) h

lemma newDateLocal_in_range_nat {y m d : ℕ} (hy : 100 ≤ y) (hm1 : 1 ≤ m)
    (hm2 : m ≤ 12) :
    newDateLocal ((y : ℚ)) ((m : ℚ) - 1) ((d : ℚ)) =
      JsDateRes.localMidnight (toEpochDay ⟨(y : Int), (m : Int), (d : Int)⟩) := by
  have h1 : ((y : ℕ) : ℚ) = (((y : ℤ)) : ℚ) := by push_cast; ring
  have h2 : ((m : ℕ) : ℚ) = (((m : ℤ)) : ℚ) := by push_cast; ring
  have h3 : ((d : ℕ) : ℚ) = (((d : ℤ)) : ℚ) := by push_cast; ring
  rw [h1, h2, h3]
  exact newDateLocal_in_range (by exact_mod_cast hy) (by exact_mod_cast hm1)
    (by exact_mod_cast hm2)

lemma parseLocalDateDash_wf {ys ms ds : List Char}
    (hysne : ys ≠ []) (hmsne : ms ≠ []) (hdsne : ds ≠ [])
    (hys : ∀ x ∈ ys, isDigitCh x = true) (hms : ∀ x ∈ ms, isDigitCh x = true)
    (hds : ∀ x ∈ ds, isDigitCh x = true)
    (hy : 100 ≤ digitsValN ys) (hm1 : 1 ≤ digitsValN ms)
    (hm2 : digitsValN ms ≤ 12) :
    parseLocalDateDash (some (ys ++ '-' :: (ms ++ '-' :: ds))) =
      JsDateRes.localMidnight
        (toEpochDay ⟨(digitsValN ys : Int), (digitsValN ms : Int),
          (digitsValN ds : Int)⟩) := by
  have hsne : ys ++ '-' :: (ms ++ '-' :: ds) ≠ [] := by simp
  simp only [parseLocalDateDash, if_neg hsne,
    splitOnChar_of_not_mem (T_not_mem_datePart hys hms hds),
    parseDatePart_split hys hms hds,
    jsNumber_digits hysne hys, jsNumber_digits hmsne hms, jsNumber_digits hdsne hds]
  exact newDateLocal_in_range_nat hy hm1 hm2

lemma parseLocalDateDash_wf_suffix {ys ms ds suffix : List Char}
    (hysne : ys ≠ []) (hmsne : ms ≠ []) (hdsne : ds ≠ [])
    (hys : ∀ x ∈ ys, isDigitCh x = true) (hms : ∀ x ∈ ms, isDigitCh x = true)
    (hds : ∀ x ∈ ds, isDigitCh x = true)
    (hy : 100 ≤ digitsValN ys) (hm1 : 1 ≤ digitsValN ms)
    (hm2 : digitsValN ms ≤ 12) :
    parseLocalDateDash
        (some ((ys ++ '-' :: (ms ++ '-' :: ds)) ++ 'T' :: suffix)) =
      JsDateRes.localMidnight
        (toEpochDay ⟨(digitsValN ys : Int), (digitsValN ms : Int),
          (digitsValN ds : Int)⟩) := by
  have hsne : (ys ++ '-' :: (ms ++ '-' :: ds)) ++ 'T' :: suffix ≠ [] := by simp
  simp only [parseLocalDateDash, if_neg hsne,
    splitOnChar_append (T_not_mem_datePart hys hms hds),
    parseDatePart_split hys hms hds,
    jsNumber_digits hysne hys, jsNumber_digits hmsne hms, jsNumber_digits hdsne hds]
  exact newDateLocal_in_range_nat hy hm1 hm2

lemma parseLocalDateCustomers_wf {ys ms ds : List Char}
    (hysne : ys ≠ []) (hmsne : ms ≠ []) (hdsne : ds ≠ [])
    (hys : ∀ x ∈ ys, isDigitCh x = true) (hms : ∀ x ∈ ms, isDigitCh x = true)
    (hds : ∀ x ∈ ds, isDigitCh x = true)
    (hy : 100 ≤ digitsValN ys) (hm1 : 1 ≤ digitsValN ms)
    (hm2 : digitsValN ms ≤ 12) :
    parseLocalDateCustomers (ys ++ '-' :: (ms ++ '-' :: ds)) =
      JsDateRes.localMidnight
        (toEpochDay ⟨(digitsValN ys : Int), (digitsValN ms : Int),
          (digitsValN ds : Int)⟩) := by
  simp only [parseLocalDateCustomers, parseDatePart_split hys hms hds,
    List.map_cons, List.map_nil, List.getD_cons_zero, List.getD_cons_succ,
    jsNumber_digits hysne hys, jsNumber_digits hmsne hms, jsNumber_digits hdsne hds]
  exact newDateLocal_in_range_nat hy hm1 hm2

/-- **C8** (counterexample). The Customers `parseLocalDate` does not
discard a trailing time suffix: `"2024-01-15T10:00:00"` yields an invalid
date, not the local midnight of 2024-01-15 that suffix-discarding would
give. -/
theorem parseLocalDateCustomers_suffix_counterexample :
    parseLocalDateCustomers ("2024-01-15T10:00:00".data) = JsDateRes.invalid ∧
    JsDateRes.invalid ≠ JsDateRes.localMidnight (toEpochDay ⟨2024, 1, 15⟩) := by
  exact ⟨by decide, by decide⟩

/-- **C8** (amended). Dashboard/Servers parser: null/undefined and empty
inputs yield an explicit invalid date, a non-numeric segment among three
yields an invalid date, and three numeric segments yield the local
midnight of the denoted calendar day (for 3–4-digit years; a trailing
`T...` suffix is discarded) — but an input whose date part does not split
into exactly three segments falls back to the environment's native
`Date(string)` parser instead of an explicit invalid result.  Customers
parser: plain `YYYY-MM-DD` yields local midnight, but a trailing time
suffix makes the date invalid instead of being discarded.  No input
throws. -/
theorem parseLocalDate_spec :
    parseLocalDateDash none = JsDateRes.invalid ∧
    parseLocalDateDash (some []) = JsDateRes.invalid ∧
    parseLocalDateDash (some ("2024-13-a".data)) = JsDateRes.invalid ∧
    (∀ ys ms ds : List Char, ys ≠ [] → ms ≠ [] → ds ≠ [] →
      (∀ x ∈ ys, isDigitCh x = true) → (∀ x ∈ ms, isDigitCh x = true) →
      (∀ x ∈ ds, isDigitCh x = true) →
      100 ≤ digitsValN ys → 1 ≤ digitsValN ms → digitsValN ms ≤ 12 →
      parseLocalDateDash (some (ys ++ '-' :: (ms ++ '-' :: ds))) =
        JsDateRes.localMidnight
          (toEpochDay ⟨(digitsValN ys : Int), (digitsValN ms : Int),
            (digitsValN ds : Int)⟩) ∧
      (∀ suffix : List Char,
        parseLocalDateDash
            (some ((ys ++ '-' :: (ms ++ '-' :: ds)) ++ 'T' :: suffix)) =
          JsDateRes.localMidnight
            (toEpochDay ⟨(digitsValN ys : Int), (digitsValN ms : Int),
              (digitsValN ds : Int)⟩)) ∧
      parseLocalDateCustomers (ys ++ '-' :: (ms ++ '-' :: ds)) =
        JsDateRes.localMidnight
          (toEpochDay ⟨(digitsValN ys : Int), (digitsValN ms : Int),
            (digitsValN ds : Int)⟩)) ∧
    parseLocalDateDash (some ("2024".data)) =
      JsDateRes.nativeParse ("2024".data) ∧
    JsDateRes.nativeParse ("2024".data) ≠ JsDateRes.invalid ∧
    parseLocalDateCustomers ("2024-01-15T10:00:00".data) = JsDateRes.invalid := by
  refine ⟨rfl, by decide, by decide, ?_, by decide, by decide, by decide⟩
  intro ys ms ds h1 h2 h3 h4 h5 h6 h7 h8 h9
  exact ⟨parseLocalDateDash_wf h1 h2 h3 h4 h5 h6 h7 h8 h9,
    fun suffix => parseLocalDateDash_wf_suffix h1 h2 h3 h4 h5 h6 h7 h8 h9,
    parseLocalDateCustomers_wf h1 h2 h3 h4 h5 h6 h7 h8 h9⟩

theorem parseLocalDate_spec_witness :
    ((['2', '0', '2', '4'] : List Char) ≠ [] ∧ (['0', '1'] : List Char) ≠ [] ∧
      (['1', '5'] : List Char) ≠ [] ∧
      (∀ x ∈ (['2', '0', '2', '4'] : List Char), isDigitCh x = true) ∧
      (∀ x ∈ (['0', '1'] : List Char), isDigitCh x = true) ∧
      (∀ x ∈ (['1', '5'] : List Char), isDigitCh x = true) ∧
      100 ≤ digitsValN ['2', '0', '2', '4'] ∧ 1 ≤ digitsValN ['0', '1'] ∧
      digitsValN ['0', '1'] ≤ 12) ∧
    parseLocalDateDash
        (some (['2', '0', '2', '4'] ++ '-' :: (['0', '1'] ++ '-' :: ['1', '5']))) =
      JsDateRes.localMidnight
        (toEpochDay ⟨(digitsValN ['2', '0', '2', '4'] : Int),
          (digitsValN ['0', '1'] : Int), (digitsValN ['1', '5'] : Int)⟩) :=
  ⟨⟨by decide, by decide, by decide, by decide, by decide, by decide,
    by decide, by decide, by decide⟩,
    (parseLocalDate_spec.2.2.2.1 ['2', '0', '2', '4'] ['0', '1'] ['1', '5']
      (by decide) (by decide) (by decide) (by decide) (by decide) (by decide)
      (by decide) (by decide) (by decide)).1⟩
